import Mathlib

/-!
Shallow embedding of the Chrome-Dino vision bot (src/dino.py) and proofs of
the specification's claims about it.

The program is a single class `DinoBot`.  Each loop iteration captures a
frame, crops it (`img_game[row_start:row_end, col_start:]`), preprocesses the
crop (grayscale, inverse binary threshold at 127, Canny 50/50, two 5x5
dilations), extracts contour candidates through `cvzone.findContours` with
`minArea=100`, and applies the game logic (`_apply_game_logic`): sort the
candidates by bounding-box x, draw a marker line for the leftmost one and
press the space key when its x lies strictly below `jump_distance`.

Images are embedded as `List (List _)` grids (a numpy array is a rectangular
grid; Python slicing on non-negative indices clamps exactly like
`List.drop`/`List.take`).  External library primitives whose internals no
claim depends on (Canny edge detection, raw contour extraction together with
`contourArea`/`boundingRect`) are taken as function parameters; every other
step is translated from its call site.
-/

namespace DinoBot

/-- A grid of pixels: the rows of a 2-D image, top to bottom. -/
abbrev Grid (α : Type) : Type := List (List α)

/-- A BGR color pixel, the channel order OpenCV uses: (blue, green, red). -/
abbrev BGRPixel : Type := Nat × Nat × Nat

/-- Entry `(i, j)` of a grid, `none` when the row or the column is out of
range (row index first, as in `img[i][j]`). -/
def entryAt {α : Type} (g : Grid α) (i j : Nat) : Option α :=
  (g[i]?).bind fun row => row[j]?

/-! ## Region Cropper: `img_game[cp["row_start"]:cp["row_end"], cp["col_start"]:]`
(src/dino.py line 169).  Python's slice `a[r0:r1]` on non-negative bounds
takes the elements with indices `r0 ≤ i < r1`, clamping both bounds to the
available length and never raising; `List.drop`/`List.take` over `Nat` have
exactly these semantics. -/

/-- Crop the frame: rows `row_start ≤ i < row_end`, and in every kept row the
columns from `col_start` on (translation of line 169). -/
def crop_frame {α : Type} (frame : Grid α) (row_start row_end col_start : Nat) :
    Grid α :=
  List.map (fun row => List.drop col_start row)
    (List.take (row_end - row_start) (List.drop row_start frame))

/-! ## Write-back: `img_game[cp["row_start"]:cp["row_end"], cp["col_start"]:] = img_contours_with_logic`
(src/dino.py line 184).  Numpy slice assignment overwrites exactly the
selected sub-rectangle; every row keeps its length, rows outside
`[row_start, row_end)` and columns before `col_start` are untouched. -/

/-- One row of the slice assignment: when the absolute row index `idx` lies in
`[row_start, row_end)` the columns from `col_start` on are replaced by row
`idx - row_start` of the block (truncated to the row's length, as numpy can
never grow a row); other rows are returned unchanged. -/
def assign_row {α : Type} (row_start row_end col_start : Nat) (block : Grid α)
    (idx : Nat) (row : List α) : List α :=
  if row_start ≤ idx ∧ idx < row_end then
    List.take col_start row ++
      List.take (row.length - col_start) (List.getD block (idx - row_start) [])
  else
    row

/-- Slice assignment over the rows of the frame, `k` the absolute index of the
first row of `rows`. -/
def slice_assign_rows {α : Type} (row_start row_end col_start : Nat)
    (block : Grid α) (k : Nat) : Grid α → Grid α
  | [] => []
  | row :: rest =>
      assign_row row_start row_end col_start block k row ::
        slice_assign_rows row_start row_end col_start block (k + 1) rest

/-- Translation of line 184: write the processed block back into the frame at
rows `[row_start, row_end)`, columns from `col_start` on. -/
def slice_assign {α : Type} (frame : Grid α) (row_start row_end col_start : Nat)
    (block : Grid α) : Grid α :=
  slice_assign_rows row_start row_end col_start block 0 frame

/-! ## Obstacle Detector, step 1: `_preprocess_image` (src/dino.py lines 81-105).

`cv2.cvtColor(img, COLOR_BGR2GRAY)` and `cv2.threshold(..., 127, 255,
THRESH_BINARY_INV)` are per-pixel maps with fully documented semantics, so
they are embedded concretely; `cv2.Canny` is a complex multi-stage filter no
claim depends on, so it is a parameter of the embedding; `cv2.dilate` with a
5x5 all-ones kernel is the per-pixel maximum over the 5x5 window. -/

/-- OpenCV's fixed-point BGR-to-luminance conversion:
`Y = (4899*R + 9617*G + 1868*B + 2^13) >> 14` (the documented coefficients
0.299/0.587/0.114 scaled by 2^14, round half up). -/
def cvt_color_bgr2gray_pixel (p : BGRPixel) : Nat :=
  (4899 * p.2.2 + 9617 * p.2.1 + 1868 * p.1 + 8192) / 16384

/-- Apply a per-pixel map to every pixel of a grid. -/
def map_pixels {α β : Type} (f : α → β) (g : Grid α) : Grid β :=
  List.map (List.map f) g

/-- OpenCV `cv2.threshold` with type `THRESH_BINARY_INV`, per pixel:
`dst = 0` when `src > thresh`, else `dst = maxval` (line 96 calls it with
`thresh = 127`, `maxval = 255`). -/
def threshold_binary_inv (thresh maxval p : Nat) : Nat :=
  if thresh < p then 0 else maxval

/-- Maximum of the 5x5 window centred at `(i, j)`.  Out-of-range neighbours
contribute 0 (OpenCV dilates with a border value that never raises the
maximum); over `Nat` the truncated `i + d - 2` clamps to index 0, which lies
inside the true window whenever truncation happens, so the scanned set of
in-range cells is exactly the window's. -/
def window_max5 (g : Grid Nat) (i j : Nat) : Nat :=
  List.foldl
    (fun acc di =>
      List.foldl
        (fun acc2 dj =>
          max acc2 (List.getD (List.getD g (i + di - 2) []) (j + dj - 2) 0))
        acc (List.range 5))
    0 (List.range 5)

/-- OpenCV `cv2.dilate` with `np.ones((5, 5))` as structuring element
(lines 102-103): every pixel becomes the maximum of its 5x5 neighbourhood. -/
def dilate_5x5 (g : Grid Nat) : Grid Nat :=
  List.map
    (fun i => List.map (fun j => window_max5 g i j)
      (List.range (List.getD g i []).length))
    (List.range g.length)

/-- Translation of `_preprocess_image` (lines 92-105): grayscale, inverse
binary threshold at 127, Canny with both gradient thresholds 50 (the `canny`
parameter applied to `(50, 50)`), then dilation with the 5x5 kernel for
`iterations=2`, i.e. `dilate_5x5` applied twice. -/
def preprocess_image (canny : Nat → Nat → Grid Nat → Grid Nat)
    (img_crop : Grid BGRPixel) : Grid Nat :=
  let gray_frame := map_pixels cvt_color_bgr2gray_pixel img_crop
  let binary_frame := map_pixels (threshold_binary_inv 127 255) gray_frame
  let canny_frame := canny 50 50 binary_frame
  let dilated_frame := dilate_5x5 (dilate_5x5 canny_frame)
  dilated_frame

/-- Thresholding step exactly as the spec words it ("pixels darker than 127
become foreground (max intensity), others background (zero)"): strict
comparison with the cutoff. -/
def spec_threshold_pixel (p : Nat) : Nat :=
  if p < 127 then 255 else 0

/-- Thresholding step as the amended claim words it: pixels not brighter than
the cutoff (intensity at most 127) become max intensity, others zero. -/
def spec_threshold_pixel_amended (p : Nat) : Nat :=
  if p ≤ 127 then 255 else 0

/-! ## Obstacle Detector, step 2: `_find_obstacles` (src/dino.py lines 107-124),
a call of `cvzone.findContours(img_crop, img_pre, minArea=100, filter=None)`.

`cvzone.findContours` runs `cv2.findContours` and, per raw contour, computes
`area = cv2.contourArea(cnt)` and `bbox = cv2.boundingRect(approx)`; those
geometric primitives are summarised by the `extract` parameter producing one
`RawContour` per raw contour, in extraction order.  The library then keeps a
contour only when `minArea < area` (with `filter=None` no corner-count
filtering applies), builds the candidate record with its integer-division
centre, and — `sort=True` being the default — stable-sorts the result by
descending area.  `cv2.contourArea` returns an exact multiple of 1/2, so
areas are embedded as rationals. -/

/-- Bounding box `(x, y, w, h)` as returned by `cv2.boundingRect`. -/
structure Bbox where
  x : Int
  y : Int
  w : Int
  h : Int
deriving DecidableEq

/-- The attributes `cvzone.findContours` reads off one raw contour:
`cv2.contourArea` of the contour and `cv2.boundingRect` of its polygonal
approximation. -/
structure RawContour where
  area : Rat
  bbox : Bbox
deriving DecidableEq

/-- One entry of the `conFound` list `cvzone.findContours` returns:
`{"area": ..., "bbox": ..., "center": ...}` (the raw point list is dropped,
no claim mentions it). -/
structure Candidate where
  area : Rat
  bbox : Bbox
  center : Int × Int
deriving DecidableEq

/-- Stable insertion for the descending-by-area sort: `c` goes in front of the
first already-placed candidate whose area does not exceed `c`'s, so
equal-area candidates keep their relative order, as Python's stable
`sorted(..., reverse=True)` does. -/
def insert_by_area_desc (c : Candidate) : List Candidate → List Candidate
  | [] => [c]
  | d :: ds =>
      if d.area ≤ c.area then c :: d :: ds else d :: insert_by_area_desc c ds

/-- Stable sort by descending area: `sorted(conFound, key=lambda x: x["area"],
reverse=True)` inside `cvzone.findContours` (its `sort=True` default). -/
def sort_by_area_desc : List Candidate → List Candidate
  | [] => []
  | c :: cs => insert_by_area_desc c (sort_by_area_desc cs)

/-- The filtering and record-building loop of `cvzone.findContours`: keep a
contour when `minArea < area` (the call passes `filter=None`, so no
corner-count filter applies), record area, bbox and the floor-division
centre `(x + w // 2, y + h // 2)`, then sort by descending area. -/
def cvzone_find_contours (minArea : Rat) (cons : List RawContour) :
    List Candidate :=
  let conFound := List.filterMap
    (fun rc =>
      if minArea < rc.area then
        some ⟨rc.area, rc.bbox,
          (rc.bbox.x + Int.fdiv rc.bbox.w 2, rc.bbox.y + Int.fdiv rc.bbox.h 2)⟩
      else none)
    cons
  sort_by_area_desc conFound

/-- Translation of `_find_obstacles` (lines 107-124): run the raw extraction
on the preprocessed image and hand the contours to `cvzone.findContours` with
`minArea=100`. -/
def find_obstacles (extract : Grid Nat → List RawContour)
    (img_pre : Grid Nat) : List Candidate :=
  cvzone_find_contours 100 (extract img_pre)

/-- The whole Obstacle Detector: preprocess the crop, then extract and filter
the contour candidates (steps 3 and 4 of `run`). -/
def obstacle_detector (canny : Nat → Nat → Grid Nat → Grid Nat)
    (extract : Grid Nat → List RawContour) (img_crop : Grid BGRPixel) :
    List Candidate :=
  find_obstacles extract (preprocess_image canny img_crop)

/-! ## Decision Engine: `_apply_game_logic` (src/dino.py lines 126-152).

The display image is embedded as its pixel grid together with the journal of
`cv2.line` calls drawn onto it; the method's observable effects are the
returned image, the number of `pyautogui.press("space")` calls and the lines
printed to the console. -/

/-- One `cv2.line(img, pt1, pt2, color, thickness)` call, `pt = (x, y)`. -/
structure LineCmd where
  pt1 : Int × Int
  pt2 : Int × Int
  color : Int × Int × Int
  thickness : Int
deriving DecidableEq

/-- A display image: its pixels and the journal of lines drawn onto it. -/
structure OverlayImage where
  base : Grid BGRPixel
  lines : List LineCmd
deriving DecidableEq

/-- The observable effects of one `_apply_game_logic` call: the returned
image, how many times the space key was pressed, and the printed log lines. -/
structure GameEffects where
  img : OverlayImage
  space_presses : Nat
  logs : List String
deriving DecidableEq

/-- Drawing a line: append the call to the image's journal. -/
def cv_line (img : OverlayImage) (pt1 pt2 : Int × Int)
    (color : Int × Int × Int) (thickness : Int) : OverlayImage :=
  ⟨img.base, img.lines ++ [⟨pt1, pt2, color, thickness⟩]⟩

/-- Stable insertion for the ascending-by-x sort: `c` goes in front of the
first already-placed candidate whose bounding-box x is not below `c`'s, so
equal-x candidates keep their relative order, as Python's stable `sorted`
does. -/
def ordered_insert_by_x (c : Candidate) : List Candidate → List Candidate
  | [] => [c]
  | d :: ds =>
      if c.bbox.x ≤ d.bbox.x then c :: d :: ds else d :: ordered_insert_by_x c ds

/-- `sorted(con_found, key=lambda x: x["bbox"][0])` (line 139): stable sort of
the candidates by ascending bounding-box x. -/
def sorted_by_x : List Candidate → List Candidate
  | [] => []
  | c :: cs => ordered_insert_by_x c (sorted_by_x cs)

/-- Translation of `_apply_game_logic` (lines 126-152).  The Python guard
`if con_found:` together with the subsequent head access
`left_most_contour[0]` is rendered as one match on the sorted list, which is
empty exactly when `con_found` is (`sorted_by_x_eq_nil` below).  In the
non-empty branch the marker line is drawn from `(jump_distance, y+10)` to
`(x, y+10)` in green `(0, 200, 0)` with thickness 10, and when `x <
jump_distance` the space key is pressed once and one log line is printed. -/
def apply_game_logic (jump_distance : Int) (img_contours : OverlayImage)
    (con_found : List Candidate) : GameEffects :=
  match sorted_by_x con_found with
  | [] => ⟨img_contours, 0, []⟩
  | lm :: _ =>
      let img1 := cv_line img_contours
        (jump_distance, lm.bbox.y + 10) (lm.bbox.x, lm.bbox.y + 10)
        (0, 200, 0) 10
      if lm.bbox.x < jump_distance then
        ⟨img1, 1, ["Jump!"]⟩
      else
        ⟨img1, 0, []⟩

/-- The candidate the spec designates: the one with minimum bounding-box x,
ties broken in favour of the earlier list position. -/
def spec_nearest_candidate : List Candidate → Option Candidate
  | [] => none
  | c :: cs =>
      match spec_nearest_candidate cs with
      | none => some c
      | some d => if c.bbox.x ≤ d.bbox.x then some c else some d

/-- The minimum bounding-box x-coordinate of a candidate list, `none` when the
list is empty. -/
def min_bbox_x : List Candidate → Option Int
  | [] => none
  | c :: cs =>
      match min_bbox_x cs with
      | none => some c.bbox.x
      | some m => some (min c.bbox.x m)

/-! ## Concrete data for the witnesses -/

/-- A concrete 3x3 frame. -/
def frame3 : Grid Nat := [[1, 2, 3], [4, 5, 6], [7, 8, 9]]

/-- A concrete 1x2 replacement block. -/
def block1 : Grid Nat := [[100, 200]]

/-- A bounding box at horizontal offset `x`. -/
def bbox_at (x : Int) : Bbox := ⟨x, 5, 10, 12⟩

/-- A candidate of area 150 whose bounding box sits at horizontal offset
`x`. -/
def cand_at (x : Int) : Candidate := ⟨150, bbox_at x, (x + 5, 11)⟩

/-- A concrete 1x1 display image with an empty line journal. -/
def img0 : OverlayImage := ⟨[[(0, 0, 0)]], []⟩

/-- A degenerate edge-detection stand-in used to instantiate the `canny`
parameter in witnesses: it returns the mask unchanged. -/
def canny_id : Nat → Nat → Grid Nat → Grid Nat := fun _ _ g => g

/-- A concrete raw-contour extraction producing two contours, areas 150 and
50, at offsets 30 and 80. -/
def extract_two : Grid Nat → List RawContour :=
  fun _ => [⟨150, bbox_at 30⟩, ⟨50, bbox_at 80⟩]

/-! # Theorems -/

theorem slice_assign_rows_getElem {α : Type}
    (row_start row_end col_start : Nat) (block : Grid α) :
    ∀ (rows : Grid α) (k i : Nat),
      (slice_assign_rows row_start row_end col_start block k rows)[i]? =
        Option.map (assign_row row_start row_end col_start block (k + i))
          rows[i]? := by
  intro rows
  induction rows with
  | nil => intro k i; simp [slice_assign_rows]
  | cons row rest ih =>
      intro k i
      cases i with
      | zero => simp [slice_assign_rows]
      | succ n =>
          simp only [slice_assign_rows, List.getElem?_cons_succ]
          have h := ih (k + 1) n
          have harith : k + 1 + n = k + (n + 1) := by omega
          rw [h, harith]

theorem assign_row_length {α : Type}
    (row_start row_end col_start : Nat) (block : Grid α) (idx : Nat)
    (row : List α) :
    (assign_row row_start row_end col_start block idx row).length ≤ row.length := by
  unfold assign_row
  split
  · simp only [List.length_append, List.length_take]
    omega
  · exact Nat.le_refl _

theorem assign_row_getElem_of_lt {α : Type}
    (row_start row_end col_start : Nat) (block : Grid α) (idx : Nat)
    (row : List α) (j : Nat) (hj : j < col_start) :
    (assign_row row_start row_end col_start block idx row)[j]? = row[j]? := by
  unfold assign_row
  split
  · by_cases hrow : j < row.length
    · rw [List.getElem?_append]
      have hlen : j < (List.take col_start row).length := by
        simp only [List.length_take]
        omega
      rw [if_pos hlen, List.getElem?_take, if_pos hj]
    · have h1 : row[j]? = none := List.getElem?_eq_none (by omega)
      have h2 :
          (List.take col_start row ++
            List.take (row.length - col_start)
              (List.getD block (idx - row_start) [])).length ≤ row.length := by
        simp only [List.length_append, List.length_take]
        omega
      rw [h1, List.getElem?_eq_none (by omega)]
  · rfl

/-- C6: writing the processed crop back into the full frame at rows
`row_start:row_end` and columns `col_start:` leaves every pixel outside that
sub-rectangle bit-identical to the original frame. -/
theorem write_back_preserves_outside {α : Type} (frame : Grid α)
    (row_start row_end col_start : Nat) (block : Grid α) (i j : Nat)
    (h : ¬(row_start ≤ i ∧ i < row_end ∧ col_start ≤ j)) :
    entryAt (slice_assign frame row_start row_end col_start block) i j =
      entryAt frame i j := by
  unfold entryAt slice_assign
  rw [slice_assign_rows_getElem]
  simp only [Nat.zero_add]
  cases hrow : frame[i]? with
  | none => rfl
  | some row =>
      simp only [Option.map_some', Option.some_bind]
      by_cases hi : row_start ≤ i ∧ i < row_end
      · have hj : j < col_start := by omega
        exact assign_row_getElem_of_lt row_start row_end col_start block i row j hj
      · unfold assign_row
        rw [if_neg hi]

/-- Witness for C6: on the concrete frame `frame3` with the write-back window
rows `[1, 2)`, columns from 1 on, the corner pixel `(0, 0)` is unchanged. -/
theorem write_back_preserves_outside_witness :
    entryAt (slice_assign frame3 1 2 1 block1) 0 0 = entryAt frame3 0 0 :=
  write_back_preserves_outside frame3 1 2 1 block1 0 0 (by decide)

/-- C9: with `row_end` within the frame's height and `col_start` within its
width, the Region Cropper returns exactly the sub-grid
`frame[row_start:row_end, col_start:]`: `row_end - row_start` rows, each a
full-width tail from column `col_start`, with entry `(i, j)` equal to entry
`(row_start + i, col_start + j)` of the frame. -/
theorem crop_frame_returns_subgrid {α : Type} (frame : Grid α)
    (row_start row_end col_start W : Nat)
    (h1 : row_end ≤ frame.length)
    (hW : ∀ row ∈ frame, row.length = W)
    (h2 : col_start ≤ W) :
    (crop_frame frame row_start row_end col_start).length = row_end - row_start
    ∧ (∀ i j, entryAt (crop_frame frame row_start row_end col_start) i j =
        if i < row_end - row_start then
          entryAt frame (row_start + i) (col_start + j)
        else none)
    ∧ (∀ row ∈ crop_frame frame row_start row_end col_start,
        row.length = W - col_start) := by
  refine ⟨?_, ?_, ?_⟩
  · simp only [crop_frame, List.length_map, List.length_take, List.length_drop]
    omega
  · intro i j
    unfold entryAt crop_frame
    rw [List.getElem?_map, List.getElem?_take]
    by_cases hi : i < row_end - row_start
    · rw [if_pos hi, if_pos hi, List.getElem?_drop]
      cases hrow : frame[row_start + i]? with
      | none => rfl
      | some row =>
          simp only [Option.map_some', Option.some_bind]
          rw [List.getElem?_drop]
    · rw [if_neg hi, if_neg hi]
      rfl
  · intro row hrow
    unfold crop_frame at hrow
    rcases List.mem_map.mp hrow with ⟨orig, horig, hdrop⟩
    have horig2 : orig ∈ frame :=
      List.mem_of_mem_drop (List.mem_of_mem_take horig)
    have hlen : orig.length = W := hW orig horig2
    rw [← hdrop, List.length_drop, hlen]

/-- Witness for C9: cropping the concrete frame `frame3` (width 3) to rows
`[0, 1)`, columns from 1 on, yields one row whose entry `(0, 0)` is the
frame's entry `(0, 1)`. -/
theorem crop_frame_returns_subgrid_witness :
    (crop_frame frame3 0 1 1).length = 1 - 0
    ∧ entryAt (crop_frame frame3 0 1 1) 0 0 =
        (if 0 < 1 - 0 then entryAt frame3 (0 + 0) (1 + 0) else none) :=
  ⟨(crop_frame_returns_subgrid frame3 0 1 1 3 (by decide) (by decide)
      (by decide)).1,
   (crop_frame_returns_subgrid frame3 0 1 1 3 (by decide) (by decide)
      (by decide)).2.1 0 0⟩

/-- C10: cropping never fails on an out-of-range window: the slice clamps to
the available extent, the result has `min row_end height - row_start` rows,
every row is the (possibly empty) tail of a frame row from column
`col_start`, and a `row_start` at or beyond the height yields the empty
grid. -/
theorem crop_frame_clamps {α : Type} (frame : Grid α)
    (row_start row_end col_start : Nat) :
    (crop_frame frame row_start row_end col_start).length =
        min row_end frame.length - row_start
    ∧ (∀ row ∈ crop_frame frame row_start row_end col_start,
        ∃ orig ∈ frame, row = List.drop col_start orig ∧
          row.length = orig.length - col_start)
    ∧ (frame.length ≤ row_start →
        crop_frame frame row_start row_end col_start = []) := by
  have hlen : (crop_frame frame row_start row_end col_start).length =
      min row_end frame.length - row_start := by
    simp only [crop_frame, List.length_map, List.length_take, List.length_drop]
    omega
  refine ⟨hlen, ?_, ?_⟩
  · intro row hrow
    unfold crop_frame at hrow
    rcases List.mem_map.mp hrow with ⟨orig, horig, hdrop⟩
    have horig2 : orig ∈ frame :=
      List.mem_of_mem_drop (List.mem_of_mem_take horig)
    exact ⟨orig, horig2, hdrop.symm, by rw [← hdrop, List.length_drop]⟩
  · intro hle
    have h0 : (crop_frame frame row_start row_end col_start).length = 0 := by
      rw [hlen]; omega
    exact List.eq_nil_of_length_eq_zero h0

/-! ### Lemmas about the Decision Engine's stable sort and selection -/

theorem ordered_insert_by_x_ne_nil (c : Candidate) (l : List Candidate) :
    ordered_insert_by_x c l ≠ [] := by
  cases l with
  | nil => simp [ordered_insert_by_x]
  | cons d ds =>
      simp only [ordered_insert_by_x]
      split <;> simp

theorem sorted_by_x_eq_nil_iff (l : List Candidate) :
    sorted_by_x l = [] ↔ l = [] := by
  cases l with
  | nil => simp [sorted_by_x]
  | cons c cs =>
      simp only [sorted_by_x]
      constructor
      · intro h
        exact absurd h (ordered_insert_by_x_ne_nil c (sorted_by_x cs))
      · intro h
        exact absurd h (List.cons_ne_nil c cs)

theorem sorted_by_x_head (l : List Candidate) :
    (sorted_by_x l).head? = spec_nearest_candidate l := by
  induction l with
  | nil => rfl
  | cons c cs ih =>
      have h : spec_nearest_candidate (c :: cs) =
          match spec_nearest_candidate cs with
          | none => some c
          | some d => if c.bbox.x ≤ d.bbox.x then some c else some d := rfl
      rw [h, ← ih]
      show (ordered_insert_by_x c (sorted_by_x cs)).head? = _
      cases sorted_by_x cs with
      | nil => rfl
      | cons d ds =>
          simp only [List.head?_cons]
          unfold ordered_insert_by_x
          by_cases hc : c.bbox.x ≤ d.bbox.x
          · rw [if_pos hc, if_pos hc]
            rfl
          · rw [if_neg hc, if_neg hc]
            rfl

theorem spec_nearest_candidate_of_eq_none (l : List Candidate)
    (h : spec_nearest_candidate l = none) : l = [] := by
  cases l with
  | nil => rfl
  | cons c cs =>
      exfalso
      rw [spec_nearest_candidate] at h
      split at h
      · simp at h
      · split at h <;> simp at h

theorem spec_nearest_candidate_closed (l : List Candidate) (c : Candidate)
    (h : spec_nearest_candidate l = some c) :
    c ∈ l ∧ (∀ d ∈ l, c.bbox.x ≤ d.bbox.x) ∧
      ∃ n : Nat, l[n]? = some c ∧
        ∀ m : Nat, m < n → ∀ d : Candidate, l[m]? = some d → c.bbox.x < d.bbox.x := by
  induction l generalizing c with
  | nil => simp [spec_nearest_candidate] at h
  | cons a tl ih =>
      rw [spec_nearest_candidate] at h
      split at h
      · rename_i hs
        simp only [Option.some_inj] at h
        subst c
        have htl : tl = [] := spec_nearest_candidate_of_eq_none tl hs
        subst htl
        refine ⟨List.mem_singleton_self a, ?_, 0, by simp, ?_⟩
        · intro d hd
          rw [List.mem_singleton] at hd
          subst hd
          exact le_refl _
        · intro m hm
          omega
      · rename_i d hs
        rcases ih d hs with ⟨hmem, hmin, n, hn, hpre⟩
        by_cases hc : a.bbox.x ≤ d.bbox.x
        · rw [if_pos hc, Option.some_inj] at h
          subst c
          refine ⟨List.mem_cons_self a tl, ?_, 0, by simp, ?_⟩
          · intro e he
            rcases List.mem_cons.mp he with he | he
            · subst he; exact le_refl _
            · exact le_trans hc (hmin e he)
          · intro m hm
            omega
        · rw [if_neg hc, Option.some_inj] at h
          subst c
          refine ⟨List.mem_cons_of_mem a hmem, ?_, n + 1, ?_, ?_⟩
          · intro e he
            rcases List.mem_cons.mp he with he | he
            · subst he
              exact le_of_lt (lt_of_not_le hc)
            · exact hmin e he
          · simpa using hn
          · intro m hm e hme
            cases m with
            | zero =>
                simp only [List.getElem?_cons_zero, Option.some_inj] at hme
                subst hme
                exact lt_of_not_le hc
            | succ m' =>
                simp only [List.getElem?_cons_succ] at hme
                exact hpre m' (by omega) e hme

theorem min_bbox_x_eq_map (l : List Candidate) :
    min_bbox_x l = Option.map (fun c => c.bbox.x) (spec_nearest_candidate l) := by
  induction l with
  | nil => rfl
  | cons c cs ih =>
      cases hs : spec_nearest_candidate cs with
      | none =>
          have h0 : min_bbox_x cs = none := by rw [ih, hs]; rfl
          rw [min_bbox_x, spec_nearest_candidate, h0, hs]
          rfl
      | some d =>
          have h0 : min_bbox_x cs = some d.bbox.x := by rw [ih, hs]; rfl
          rw [min_bbox_x, spec_nearest_candidate, h0, hs]
          show some (min c.bbox.x d.bbox.x) =
            Option.map (fun c => c.bbox.x)
              (if c.bbox.x ≤ d.bbox.x then some c else some d)
          by_cases hc : c.bbox.x ≤ d.bbox.x
          · rw [if_pos hc]
            simp [min_eq_left hc]
          · rw [if_neg hc]
            simp [min_eq_right (le_of_not_le hc)]

theorem apply_game_logic_of_nearest (jd : Int) (img : OverlayImage)
    (l : List Candidate) (c : Candidate)
    (h : spec_nearest_candidate l = some c) :
    apply_game_logic jd img l =
      (if c.bbox.x < jd then
        ⟨cv_line img (jd, c.bbox.y + 10) (c.bbox.x, c.bbox.y + 10) (0, 200, 0) 10,
          1, ["Jump!"]⟩
      else
        ⟨cv_line img (jd, c.bbox.y + 10) (c.bbox.x, c.bbox.y + 10) (0, 200, 0) 10,
          0, []⟩) := by
  have hh : (sorted_by_x l).head? = some c := by rw [sorted_by_x_head, h]
  unfold apply_game_logic
  cases hs : sorted_by_x l with
  | nil => rw [hs] at hh; simp at hh
  | cons lm rest =>
      rw [hs] at hh
      simp only [List.head?_cons, Option.some_inj] at hh
      subst hh
      rfl

/-- C3: on an empty candidate sequence the Decision Engine issues no jump,
draws no marker and returns the display image unchanged. -/
theorem decision_engine_empty_no_action (jd : Int) (img : OverlayImage) :
    apply_game_logic jd img [] = ⟨img, 0, []⟩ := rfl

/-- C1: a jump (one space press together with the log line) is issued exactly
when the candidate sequence is non-empty and its minimum bounding-box x lies
strictly below `jump_distance`; at most one press happens per iteration, and
a minimum exactly equal to `jump_distance` issues no jump. -/
theorem decision_engine_jump_iff (jd : Int) (img : OverlayImage)
    (l : List Candidate) :
    (0 < (apply_game_logic jd img l).space_presses ↔
      l ≠ [] ∧ ∃ m : Int, min_bbox_x l = some m ∧ m < jd)
    ∧ (apply_game_logic jd img l).space_presses ≤ 1
    ∧ ((apply_game_logic jd img l).logs =
        if 0 < (apply_game_logic jd img l).space_presses then ["Jump!"] else [])
    ∧ (min_bbox_x l = some jd → (apply_game_logic jd img l).space_presses = 0) := by
  cases hs : spec_nearest_candidate l with
  | none =>
      have hl : l = [] := spec_nearest_candidate_of_eq_none l hs
      subst hl
      refine ⟨?_, ?_, ?_, ?_⟩
      · constructor
        · intro h0
          exact (Nat.lt_irrefl 0 h0).elim
        · intro hex
          exact absurd rfl hex.1
      · show (0 : Nat) ≤ 1
        omega
      · rfl
      · intro hj
        simp [min_bbox_x] at hj
  | some c =>
      have happ := apply_game_logic_of_nearest jd img l c hs
      have hmin : min_bbox_x l = some c.bbox.x := by
        rw [min_bbox_x_eq_map, hs]
        rfl
      have hne : l ≠ [] := by
        intro h0
        subst h0
        simp [spec_nearest_candidate] at hs
      by_cases hlt : c.bbox.x < jd
      · rw [happ, if_pos hlt]
        refine ⟨⟨fun _ => ⟨hne, c.bbox.x, hmin, hlt⟩, fun _ => Nat.one_pos⟩, ?_, ?_, ?_⟩
        · show (1 : Nat) ≤ 1
          omega
        · show ["Jump!"] = if (0 : Nat) < 1 then ["Jump!"] else []
          simp
        · intro hj
          rw [hmin, Option.some_inj] at hj
          exfalso
          omega
      · rw [happ, if_neg hlt]
        refine ⟨⟨fun h0 => (Nat.lt_irrefl 0 h0).elim, fun hex => ?_⟩, ?_, ?_, fun _ => rfl⟩
        · rcases hex with ⟨-, m, hm, hmlt⟩
          rw [hmin, Option.some_inj] at hm
          exfalso
          omega
        · show (0 : Nat) ≤ 1
          omega
        · show ([] : List String) = if (0 : Nat) < 0 then ["Jump!"] else []
          simp

/-- C2: on a non-empty sequence the Decision Engine selects exactly the
candidate with minimal bounding-box x (ties broken by the earlier position in
the sequence handed to it), and its jump decision and marker are a function
of that candidate alone. -/
theorem decision_engine_selects_stable_min (jd : Int) (img : OverlayImage)
    (l : List Candidate) (c : Candidate)
    (h : spec_nearest_candidate l = some c) :
    (sorted_by_x l).head? = some c
    ∧ c ∈ l
    ∧ (∀ d ∈ l, c.bbox.x ≤ d.bbox.x)
    ∧ (∃ n : Nat, l[n]? = some c ∧
        ∀ m : Nat, m < n → ∀ d : Candidate, l[m]? = some d →
          c.bbox.x < d.bbox.x)
    ∧ apply_game_logic jd img l =
        (if c.bbox.x < jd then
          ⟨cv_line img (jd, c.bbox.y + 10) (c.bbox.x, c.bbox.y + 10)
            (0, 200, 0) 10, 1, ["Jump!"]⟩
        else
          ⟨cv_line img (jd, c.bbox.y + 10) (c.bbox.x, c.bbox.y + 10)
            (0, 200, 0) 10, 0, []⟩) := by
  rcases spec_nearest_candidate_closed l c h with ⟨h1, h2, h3⟩
  exact ⟨by rw [sorted_by_x_head, h], h1, h2, h3,
    apply_game_logic_of_nearest jd img l c h⟩

/-- Witness for C2: with the spec's scenario of candidates at x=30 and x=80,
the Decision Engine selects the x=30 candidate. -/
theorem decision_engine_selects_stable_min_witness :
    (sorted_by_x [cand_at 30, cand_at 80]).head? = some (cand_at 30)
    ∧ cand_at 30 ∈ [cand_at 30, cand_at 80] :=
  ⟨(decision_engine_selects_stable_min 65 img0 [cand_at 30, cand_at 80]
      (cand_at 30) (by decide)).1,
   (decision_engine_selects_stable_min 65 img0 [cand_at 30, cand_at 80]
      (cand_at 30) (by decide)).2.1⟩

/-- C7: whenever a candidate exists, a marker line is drawn from
`(jump_distance, y+10)` to `(x, y+10)` — `(x, y)` the nearest candidate's
top-left corner — independently of whether a jump is triggered; the pixels of
the display image are untouched. -/
theorem decision_engine_marker_line (jd : Int) (img : OverlayImage)
    (l : List Candidate) (c : Candidate)
    (h : spec_nearest_candidate l = some c) :
    (apply_game_logic jd img l).img.base = img.base
    ∧ (apply_game_logic jd img l).img.lines =
        img.lines ++ [⟨(jd, c.bbox.y + 10), (c.bbox.x, c.bbox.y + 10),
          (0, 200, 0), 10⟩] := by
  have happ := apply_game_logic_of_nearest jd img l c h
  by_cases hlt : c.bbox.x < jd
  · rw [happ, if_pos hlt]
    exact ⟨rfl, rfl⟩
  · rw [happ, if_neg hlt]
    exact ⟨rfl, rfl⟩

/-- Witness for C7: a single candidate at x=90, beyond the threshold 65, still
gets its marker line drawn (no jump would trigger there). -/
theorem decision_engine_marker_line_witness :
    (apply_game_logic 65 img0 [cand_at 90]).img.lines =
      img0.lines ++ [⟨(65, (cand_at 90).bbox.y + 10),
        ((cand_at 90).bbox.x, (cand_at 90).bbox.y + 10), (0, 200, 0), 10⟩] :=
  (decision_engine_marker_line 65 img0 [cand_at 90] (cand_at 90) (by decide)).2

/-! ### Obstacle Detector claims -/

/-- C4 (amended): the preprocessing is exactly grayscale conversion, then
inverse binary thresholding at cutoff 127 mapping pixels of intensity at most
127 to maximum intensity and strictly brighter ones to zero, then edge
detection with both gradient thresholds 50, then two applications of the 5x5
dilation — for every edge-detection primitive and every input image. -/
theorem preprocess_image_pipeline (canny : Nat → Nat → Grid Nat → Grid Nat)
    (img_crop : Grid BGRPixel) :
    preprocess_image canny img_crop =
      dilate_5x5 (dilate_5x5 (canny 50 50
        (map_pixels spec_threshold_pixel_amended
          (map_pixels cvt_color_bgr2gray_pixel img_crop)))) := by
  have hfun : threshold_binary_inv 127 255 = spec_threshold_pixel_amended := by
    funext p
    unfold threshold_binary_inv spec_threshold_pixel_amended
    by_cases hp : 127 < p
    · rw [if_pos hp, if_neg (by omega)]
    · rw [if_neg hp, if_pos (by omega)]
  unfold preprocess_image
  rw [hfun]

/-- Counterexample to C4 as stated: a pixel of intensity exactly 127 is not
"darker than 127", yet the source's inverse threshold maps it to 255, where
the claimed mapping ("pixels darker than 127 to maximum intensity and all
others to zero") sends it to 0. -/
theorem threshold_at_cutoff_counterexample :
    threshold_binary_inv 127 255 127 = 255
    ∧ spec_threshold_pixel 127 = 0
    ∧ threshold_binary_inv 127 255 127 ≠ spec_threshold_pixel 127 := by
  refine ⟨rfl, rfl, ?_⟩
  decide

/-! Membership is invariant under the detector's stable area sort. -/

theorem mem_insert_by_area_desc (c d : Candidate) (l : List Candidate) :
    d ∈ insert_by_area_desc c l ↔ d = c ∨ d ∈ l := by
  induction l with
  | nil => simp [insert_by_area_desc]
  | cons e es ih =>
      simp only [insert_by_area_desc]
      split
      · simp [List.mem_cons]
      · simp only [List.mem_cons, ih]
        tauto

theorem mem_sort_by_area_desc (d : Candidate) (l : List Candidate) :
    d ∈ sort_by_area_desc l ↔ d ∈ l := by
  induction l with
  | nil => simp [sort_by_area_desc]
  | cons c cs ih =>
      simp only [sort_by_area_desc, mem_insert_by_area_desc, ih, List.mem_cons]

/-- C5: every candidate the Obstacle Detector outputs has area at least 100;
contours of smaller area never appear, whatever the raw extraction yields. -/
theorem obstacle_candidates_min_area (extract : Grid Nat → List RawContour)
    (img_pre : Grid Nat) (c : Candidate)
    (hc : c ∈ find_obstacles extract img_pre) :
    (100 : Rat) ≤ c.area := by
  simp only [find_obstacles, cvzone_find_contours] at hc
  rw [mem_sort_by_area_desc] at hc
  rcases List.mem_filterMap.mp hc with ⟨rc, -, hrc⟩
  split at hrc
  · rename_i h
    simp only [Option.some_inj] at hrc
    subst hrc
    exact le_of_lt h
  · exact absurd hrc (by simp)

/-- Witness for C5: the concrete extraction `extract_two` (areas 150 and 50)
leaves the area-150 candidate at x=30 in the output, and its area is at least
100. -/
theorem obstacle_candidates_min_area_witness :
    (100 : Rat) ≤ (cand_at 30).area :=
  obstacle_candidates_min_area extract_two [[0]] (cand_at 30) (by decide)

/-- C8: the Obstacle Detector is deterministic — it is a pure function of the
input image (and of the fixed primitives), so two runs on the same image give
the same candidate sequence: same boxes, same areas, same order. -/
theorem obstacle_detector_deterministic
    (canny : Nat → Nat → Grid Nat → Grid Nat)
    (extract : Grid Nat → List RawContour) (img_crop : Grid BGRPixel) :
    obstacle_detector canny extract img_crop =
        obstacle_detector canny extract img_crop
    ∧ List.map (fun c => c.bbox) (obstacle_detector canny extract img_crop) =
        List.map (fun c => c.bbox) (obstacle_detector canny extract img_crop)
    ∧ List.map (fun c => c.area) (obstacle_detector canny extract img_crop) =
        List.map (fun c => c.area) (obstacle_detector canny extract img_crop) :=
  ⟨rfl, rfl, rfl⟩

/-! ### The spec's concrete scenarios (section 8), evaluated on the embedding -/

/-- Scenario: `jump_distance = 65`, candidate at x=40: jump triggered, log
emitted. -/
theorem scenario_x40_jumps :
    (apply_game_logic 65 img0 [cand_at 40]).space_presses = 1
    ∧ (apply_game_logic 65 img0 [cand_at 40]).logs = ["Jump!"] := by
  decide

/-- Scenario: candidate exactly at x=65 with `jump_distance = 65`: no jump. -/
theorem scenario_x65_no_jump :
    (apply_game_logic 65 img0 [cand_at 65]).space_presses = 0
    ∧ (apply_game_logic 65 img0 [cand_at 65]).logs = [] := by
  decide

/-- Scenario: candidate at x=90 with `jump_distance = 65`: no jump, but the
marker line is still drawn. -/
theorem scenario_x90_no_jump_marker_drawn :
    (apply_game_logic 65 img0 [cand_at 90]).space_presses = 0
    ∧ (apply_game_logic 65 img0 [cand_at 90]).img.lines ≠ [] := by
  decide

/-- Scenario: no candidates: no jump, no marker drawn. -/
theorem scenario_empty_nothing :
    (apply_game_logic 65 img0 []).space_presses = 0
    ∧ (apply_game_logic 65 img0 []).img.lines = [] := by
  decide

/-- Scenario: candidates at x=30 and x=80 in one frame: the decision is the
one for the list holding only the x=30 candidate (the x=80 candidate is
ignored). -/
theorem scenario_two_candidates :
    apply_game_logic 65 img0 [cand_at 30, cand_at 80] =
      apply_game_logic 65 img0 [cand_at 30] := by
  decide

end DinoBot
